import Mathlib

/-!
Verification of the credential reconciliation engine of
`terraform-provider-azuread`, shallowly embedded from
`internal/services/serviceprincipals/service_principal_certificate_resource.go`.

External effects (the Microsoft Graph client, the Terraform plugin SDK's
state-change polling loop, the named-mutex registry) are modelled as oracle
inputs and event traces; the pure credential-set computations are translated
directly from the Go source.
-/

namespace AzureAD

/-- Model of Go's `nullable.Type[string].GetOrZero()`: a null string reads
as the empty string. -/
def getOrZero (s : Option String) : String := s.getD ""

/-- Model of Go's `strings.EqualFold`: case-insensitive string equality via
character-wise simple case folding. -/
def eqFold (s t : String) : Bool :=
  s.data.map Char.toLower == t.data.map Char.toLower

/-- `stable.KeyCredential` from the Graph SDK, restricted to the fields the
certificate resource reads or writes.  Nullable fields are `Option`s. -/
structure KeyCredential where
  keyId : Option String
  type_ : Option String
  startDateTime : Option String
  endDateTime : Option String
  key : Option String
  deriving Repr, DecidableEq

/-- `stable.ServicePrincipal` restricted to the field this resource touches:
`KeyCredentials *[]KeyCredential` (a nil-able slice). -/
structure ServicePrincipalModel where
  keyCredentials : Option (List KeyCredential)
  deriving Repr, DecidableEq

/-- `parse.CredentialId` / the composite resource identifier
`(objectId, keyType, keyId)`. -/
structure CredentialID where
  objectId : String
  keyType : String
  keyId : String
  deriving Repr, DecidableEq

/-- `parse.NewCredentialID(objectId, "certificate", keyId)`. -/
def NewCredentialID (objectId keyType keyId : String) : CredentialID :=
  ⟨objectId, keyType, keyId⟩

/-- The `servicePrincipalResourceName` lock-name constant. -/
def servicePrincipalResourceName : String := "azuread_service_principal"

/-- The loop in `servicePrincipalCertificateResourceCreate` (lines 158-166)
over the existing credentials: each credential whose `keyId` case-folds equal
to the new credential's `keyId` aborts with the import-as-exists outcome
(`.error ()`), otherwise it is appended, preserving order. -/
def copyNonConflicting (newKeyId : String) :
    List KeyCredential → Except Unit (List KeyCredential)
  | [] => .ok []
  | c :: rest =>
      if eqFold (getOrZero c.keyId) newKeyId then .error ()
      else (copyNonConflicting newKeyId rest).map (c :: ·)

/-- `newCredentials` as built by the create path (lines 158-168): copy the
existing credentials, failing on a case-insensitive `keyId` clash, then
append the new credential at the end.  A nil slice is treated as empty. -/
def buildNewCredentials (existing : Option (List KeyCredential))
    (credential : KeyCredential) : Except Unit (List KeyCredential) :=
  match existing with
  | none => .ok [credential]
  | some creds =>
      (copyNonConflicting (getOrZero credential.keyId) creds).map
        (· ++ [credential])

/-- `newCredentials` as built by the delete path (lines 280-287): keep
exactly the credentials whose `keyId` does not case-fold equal to the target
`keyId`.  A nil slice is treated as empty. -/
def removeCredentialsLoop (keyId : String) :
    List KeyCredential → List KeyCredential
  | [] => []
  | c :: rest =>
      if eqFold (getOrZero c.keyId) keyId then removeCredentialsLoop keyId rest
      else c :: removeCredentialsLoop keyId rest

/-- The delete path's `newCredentials`, including the nil-slice guard. -/
def removeCredentials (existing : Option (List KeyCredential))
    (keyId : String) : List KeyCredential :=
  match existing with
  | none => []
  | some creds => removeCredentialsLoop keyId creds

/-- Modelled from the spec: `credentials.GetKeyCredential` (the repository's
`internal/helpers/credentials` package is not under `src/`), described as
`findByKeyId(set, keyId)`: case-insensitive linear scan returning the
matching descriptor or not-found. -/
def GetKeyCredential (creds : Option (List KeyCredential)) (keyId : String) :
    Option KeyCredential :=
  match creds with
  | none => none
  | some cs => cs.find? (fun c => eqFold (getOrZero c.keyId) keyId)

/-- A list of credentials contains a given keyId, case-insensitively. -/
def containsKeyId (creds : List KeyCredential) (keyId : String) : Bool :=
  creds.any (fun c => eqFold (getOrZero c.keyId) keyId)

theorem eqFold_refl (s : String) : eqFold s s = true := by
  simp [eqFold]

theorem copyNonConflicting_ok {k : String} {L R : List KeyCredential}
    (h : copyNonConflicting k L = .ok R) : R = L := by
  induction L generalizing R with
  | nil => simpa [copyNonConflicting] using h.symm
  | cons c rest ih =>
      by_cases hc : eqFold (getOrZero c.keyId) k = true
      · simp [copyNonConflicting, hc] at h
      · simp only [copyNonConflicting, hc] at h
        cases hr : copyNonConflicting k rest with
        | error e => rw [hr] at h; cases h
        | ok R' =>
            rw [hr] at h
            cases h
            rw [ih hr]

theorem copyNonConflicting_of_not_contains {k : String}
    {L : List KeyCredential}
    (h : ∀ c ∈ L, eqFold (getOrZero c.keyId) k = false) :
    copyNonConflicting k L = .ok L := by
  induction L with
  | nil => rfl
  | cons c rest ih =>
      have hc := h c (List.mem_cons_self c rest)
      simp only [copyNonConflicting, hc]
      rw [ih (fun c' hc' => h c' (List.mem_cons_of_mem c hc'))]
      rfl

theorem copyNonConflicting_error_of_contains {k : String}
    {L : List KeyCredential} {c : KeyCredential} (hmem : c ∈ L)
    (hc : eqFold (getOrZero c.keyId) k = true) :
    copyNonConflicting k L = .error () := by
  induction L with
  | nil => cases hmem
  | cons c' rest ih =>
      rcases List.mem_cons.mp hmem with rfl | hmem'
      · simp [copyNonConflicting, hc]
      · by_cases hc' : eqFold (getOrZero c'.keyId) k = true
        · simp [copyNonConflicting, hc']
        · simp [copyNonConflicting, hc', ih hmem', Except.map]

/-! ## Event traces and oracle environments

The directory client, the named-mutex registry and the polling loops are
side-effecting collaborators.  Each CRUD function is embedded as a function
of an oracle environment (the responses the collaborators would give) that
returns its Terraform diagnostics together with the trace of external events
it performs, in order. -/

/-- External events performed by the CRUD functions. -/
inductive Event
  | lock (name oid : String)
  | unlock (name oid : String)
  | getPrincipal
  | updatePrincipal (newCredentials : List KeyCredential)
  | pollProbe
  deriving Repr, DecidableEq

def isLockEvent : Event → Bool
  | .lock _ _ => true
  | .unlock _ _ => true
  | _ => false

/-- Outcome of one `client.GetServicePrincipal` call: an error for which
`response.WasNotFound` holds, some other error, or a response whose `Model`
may be nil. -/
inductive FetchOutcome
  | errNotFound
  | errOther (msg : String)
  | ok (model : Option ServicePrincipalModel)
  deriving Repr, DecidableEq

/-- The diagnostics the resource functions can return (`tf.ErrorDiagPathF`,
`tf.ErrorDiagF`, `tf.ImportAsExistsDiag`); `none` at the call site means nil
diagnostics, i.e. success. -/
inductive Diag
  | errorDiagPathF (path msg : String)
  | errorDiagF (msg : String)
  | importAsExists (resourceName : String) (id : CredentialID)
  deriving Repr, DecidableEq

/-- `tf.LockByName name oid` at the top of a locked section together with the
`defer tf.UnlockByName name oid` that runs on every exit path of the body. -/
def wrapLock (name oid : String) (tr : List Event) : List Event :=
  Event.lock name oid :: tr ++ [Event.unlock name oid]

/-! ## Read -/

structure ReadEnv where
  parseResult : Except String CredentialID
  fetch : FetchOutcome

/-- Result of the Read function: diagnostics, whether `d.SetId("")` dropped
the resource from state, the attribute values written by `tf.Set` on success
(`service_principal_id`, `key_id`, `type`, `start_date`, `end_date`), and
the event trace. -/
structure ReadResult where
  diags : Option Diag
  setIdEmpty : Bool
  stateSet : Option (String × String × String × String × String)
  trace : List Event
  deriving Repr, DecidableEq

/-- `servicePrincipalCertificateResourceRead` (lines 213-252): parse the id,
fetch the principal; a not-found principal or a missing credential clears the
stored id and returns nil diagnostics; otherwise set the attributes. -/
def servicePrincipalCertificateResourceRead (env : ReadEnv) : ReadResult :=
  match env.parseResult with
  | .error _ =>
      ⟨some (.errorDiagPathF "id" "Parsing certificate credential"),
        false, none, []⟩
  | .ok id =>
      match env.fetch with
      | .errNotFound => ⟨none, true, none, [.getPrincipal]⟩
      | .errOther msg =>
          ⟨some (.errorDiagPathF "service_principal_id" msg),
            false, none, [.getPrincipal]⟩
      | .ok none =>
          ⟨some (.errorDiagF "Retrieving service principal"),
            false, none, [.getPrincipal]⟩
      | .ok (some sp) =>
          match GetKeyCredential sp.keyCredentials id.keyId with
          | none => ⟨none, true, none, [.getPrincipal]⟩
          | some credential =>
              ⟨none, false,
                some (id.objectId, id.keyId, getOrZero credential.type_,
                  getOrZero credential.startDateTime,
                  getOrZero credential.endDateTime),
                [.getPrincipal]⟩

/-! ## Delete -/

/-- The probe closure passed to `consistency.WaitForDeletion` in
`servicePrincipalCertificateResourceDelete` (lines 297-307): it fetches the
principal afresh but discards the response body, then consults the
`servicePrincipal` model captured by the closure before the update was
written.  `true` = credential still present, `false` = gone. -/
def deleteProbe (stalePrincipal : ServicePrincipalModel) (keyId : String)
    (freshFetch : FetchOutcome) : Except String Bool :=
  match freshFetch with
  | .errNotFound => .error "not found"
  | .errOther msg => .error msg
  | .ok _ =>
      match GetKeyCredential stalePrincipal.keyCredentials keyId with
      | none => .ok false
      | some _ => .ok true

inductive DeletionPollOutcome
  | success
  | timeout
  | probeErr (msg : String)
  deriving Repr, DecidableEq

/-- Modelled from the spec: `consistency.WaitForDeletion` (the repository's
`internal/helpers/consistency` package is not under `src/`) polls the probe
with pending = still-found and target = not-found until the deadline.  The
model consumes the probe answers in order: an error aborts, `false` is the
target, `true` is pending and retries; exhausting the answers models the
deadline expiring while still pending.  Also returns the number of probe
calls made. -/
def waitForDeletion : List (Except String Bool) → DeletionPollOutcome × Nat
  | [] => (.timeout, 0)
  | .error e :: _ => (.probeErr e, 1)
  | .ok false :: _ => (.success, 1)
  | .ok true :: rest =>
      let r := waitForDeletion rest
      (r.1, r.2 + 1)

structure DeleteEnv where
  parseResult : Except String CredentialID
  fetch : FetchOutcome
  updateError : Option String
  pollFetches : List FetchOutcome

/-- Body of the delete function between `tf.LockByName` and the deferred
`tf.UnlockByName` (lines 265-312). -/
def deleteLocked (env : DeleteEnv) (id : CredentialID) :
    Option Diag × List Event :=
  match env.fetch with
  | .errNotFound =>
      (some (.errorDiagPathF "service_principal_id"
        "Service Principal was not found"), [.getPrincipal])
  | .errOther msg =>
      (some (.errorDiagPathF "service_principal_id" msg), [.getPrincipal])
  | .ok none =>
      (some (.errorDiagF "Retrieving service principal"), [.getPrincipal])
  | .ok (some sp) =>
      let newCredentials := removeCredentials sp.keyCredentials id.keyId
      match env.updateError with
      | some msg =>
          (some (.errorDiagF msg),
            [.getPrincipal, .updatePrincipal newCredentials])
      | none =>
          let res := waitForDeletion
            (env.pollFetches.map (deleteProbe sp id.keyId))
          let tr := [Event.getPrincipal, Event.updatePrincipal newCredentials]
            ++ List.replicate res.2 Event.pollProbe
          match res.1 with
          | .success => (none, tr)
          | .timeout =>
              (some (.errorDiagF "Waiting for deletion of certificate credential"), tr)
          | .probeErr msg => (some (.errorDiagF msg), tr)

/-- `servicePrincipalCertificateResourceDelete` (lines 254-313). -/
def servicePrincipalCertificateResourceDelete (env : DeleteEnv) :
    Option Diag × List Event :=
  match env.parseResult with
  | .error _ =>
      (some (.errorDiagPathF "id" "Parsing certificate credential"), [])
  | .ok id =>
      let body := deleteLocked env id
      (body.1, wrapLock servicePrincipalResourceName id.objectId body.2)

/-! ## Create -/

/-- One result of the `Refresh` closure: `(interface{}, string, error)`. -/
structure RefreshResult where
  value : Option KeyCredential
  label : String
  err : Option String
  deriving Repr, DecidableEq

/-- The `Refresh` closure in `servicePrincipalCertificateResourceCreate`
(lines 185-199): it fetches the principal afresh but discards the response
body, then scans the `servicePrincipal` model captured by the closure before
the update was written, returning `"Done"` on the first case-insensitive
`keyId` match and `"Waiting"` otherwise. -/
def createRefresh (stalePrincipal : ServicePrincipalModel) (keyId : String)
    (freshFetch : FetchOutcome) : RefreshResult :=
  match freshFetch with
  | .errNotFound => ⟨none, "Error", some "not found"⟩
  | .errOther msg => ⟨none, "Error", some msg⟩
  | .ok _ =>
      match stalePrincipal.keyCredentials with
      | none => ⟨none, "Waiting", none⟩
      | some creds =>
          match creds.find? (fun c => eqFold (getOrZero c.keyId) keyId) with
          | some cred => ⟨some cred, "Done", none⟩
          | none => ⟨none, "Waiting", none⟩

/-- The fields of `pluginsdk.StateChangeConf` used by the create poll.
Durations are in nanoseconds (Go `time.Duration`). -/
structure StateChangeConf where
  pending : List String
  target : List String
  timeLimit : Int
  minTimeLimit : Int
  continuousTargetOccurence : Nat
  deriving Repr, DecidableEq

/-- The `StateChangeConf` literal of the create poll (lines 179-184):
`Timeout: time.Until(deadline)` with the deadline taken from
`ctx.Deadline()`, `MinTimeout: 1 * time.Second`, and
`ContinuousTargetOccurence: 5`. -/
def createPollConf (deadline now : Int) : StateChangeConf :=
  { pending := ["Waiting"]
    target := ["Done"]
    timeLimit := deadline - now
    minTimeLimit := 1000000000
    continuousTargetOccurence := 5 }

inductive PollResult
  | ok (value : Option KeyCredential)
  | timeout
  | unexpectedState (label : String)
  | probeErr (msg : String)
  deriving Repr, DecidableEq

/-- Modelled from the spec: the Consistency Poller (`WaitForStateContext` of
the plugin SDK, not under `src/`) consumes refresh results in order.  A probe
error aborts immediately; a target label increments the consecutive-target
counter and succeeds with the probed value once the required count is
reached; a pending label resets the counter and retries; any other label is
an unexpected state; exhausting the results models the deadline expiring.
Also returns the number of probe calls made. -/
def runPoll (conf : StateChangeConf) :
    Nat → List RefreshResult → PollResult × Nat
  | _, [] => (.timeout, 0)
  | hits, r :: rest =>
      match r.err with
      | some e => (.probeErr e, 1)
      | none =>
          if conf.target.contains r.label then
            if conf.continuousTargetOccurence ≤ hits + 1 then (.ok r.value, 1)
            else
              let res := runPoll conf (hits + 1) rest
              (res.1, res.2 + 1)
          else if conf.pending.contains r.label then
            let res := runPoll conf 0 rest
            (res.1, res.2 + 1)
          else (.unexpectedState r.label, 1)

structure CreateEnv where
  objectId : String
  credResult : Except (String × String) KeyCredential
  fetch : FetchOutcome
  updateError : Option String
  pollFetches : List FetchOutcome
  deadline : Int
  now : Int
  readEnv : ReadEnv

structure CreateResult where
  diags : Option Diag
  setId : Option CredentialID
  readResult : Option ReadResult
  trace : List Event
  deriving Repr, DecidableEq

/-- Body of the create function between `tf.LockByName` and the deferred
`tf.UnlockByName` (lines 145-210), including the chained Read on success
(the Go `return servicePrincipalCertificateResourceRead(...)` is evaluated
before the deferred unlock runs). -/
def createLocked (env : CreateEnv) (credential : KeyCredential)
    (id : CredentialID) : CreateResult :=
  match env.fetch with
  | .errNotFound =>
      ⟨some (.errorDiagPathF "service_principal_id" "was not found"),
        none, none, [.getPrincipal]⟩
  | .errOther msg =>
      ⟨some (.errorDiagPathF "service_principal_id" msg),
        none, none, [.getPrincipal]⟩
  | .ok none =>
      ⟨some (.errorDiagF "model was nil"), none, none, [.getPrincipal]⟩
  | .ok (some sp) =>
      match buildNewCredentials sp.keyCredentials credential with
      | .error () =>
          ⟨some (.importAsExists "azuread_service_principal_certificate" id),
            none, none, [.getPrincipal]⟩
      | .ok newCredentials =>
          match env.updateError with
          | some msg =>
              ⟨some (.errorDiagF msg), none, none,
                [.getPrincipal, .updatePrincipal newCredentials]⟩
          | none =>
              let res := runPoll (createPollConf env.deadline env.now) 0
                (env.pollFetches.map (createRefresh sp id.keyId))
              let tr := [Event.getPrincipal,
                  Event.updatePrincipal newCredentials]
                ++ List.replicate res.2 Event.pollProbe
              match res.1 with
              | .ok value =>
                  match value with
                  | none =>
                      ⟨some (.errorDiagF
                        "certificate credential not found in service principal manifest"),
                        none, none, tr⟩
                  | some _ =>
                      let rr := servicePrincipalCertificateResourceRead
                        env.readEnv
                      ⟨rr.diags, some id, some rr, tr ++ rr.trace⟩
              | _ =>
                  ⟨some (.errorDiagF "Waiting for certificate credential"),
                    none, none, tr⟩

/-- `servicePrincipalCertificateResourceCreate` (lines 122-211). -/
def servicePrincipalCertificateResourceCreate (env : CreateEnv) :
    CreateResult :=
  match env.credResult with
  | .error (attr, msg) => ⟨some (.errorDiagPathF attr msg), none, none, []⟩
  | .ok credential =>
      match credential.keyId with
      | none =>
          ⟨some (.errorDiagF "keyId for certificate credential is nil"),
            none, none, []⟩
      | some _ =>
          let id := NewCredentialID env.objectId "certificate"
            (getOrZero credential.keyId)
          let body := createLocked env credential id
          { body with
              trace := wrapLock servicePrincipalResourceName id.objectId
                body.trace }

/-! ## Lemmas about the credential-set operations -/

theorem buildNewCredentials_some (creds : List KeyCredential)
    (credential : KeyCredential) :
    buildNewCredentials (some creds) credential =
      (copyNonConflicting (getOrZero credential.keyId) creds).map
        (· ++ [credential]) := rfl

theorem removeCredentials_some (creds : List KeyCredential) (k : String) :
    removeCredentials (some creds) k = removeCredentialsLoop k creds := rfl

theorem buildNewCredentials_ok {S L : List KeyCredential}
    {credential : KeyCredential}
    (h : buildNewCredentials (some S) credential = .ok L) :
    L = S ++ [credential] := by
  rw [buildNewCredentials_some] at h
  cases hr : copyNonConflicting (getOrZero credential.keyId) S with
  | error e => rw [hr] at h; cases h
  | ok R =>
      rw [hr] at h
      simp only [Except.map] at h
      cases h
      rw [copyNonConflicting_ok hr]

theorem removeCredentialsLoop_append (k : String)
    (a b : List KeyCredential) :
    removeCredentialsLoop k (a ++ b) =
      removeCredentialsLoop k a ++ removeCredentialsLoop k b := by
  induction a with
  | nil => rfl
  | cons c rest ih =>
      by_cases hc : eqFold (getOrZero c.keyId) k = true
      · simp [removeCredentialsLoop, hc, ih]
      · simp [removeCredentialsLoop, hc, ih]

theorem removeCredentialsLoop_of_no_match {k : String}
    {L : List KeyCredential}
    (h : ∀ c ∈ L, eqFold (getOrZero c.keyId) k = false) :
    removeCredentialsLoop k L = L := by
  induction L with
  | nil => rfl
  | cons c rest ih =>
      have hc := h c (List.mem_cons_self c rest)
      simp [removeCredentialsLoop, hc,
        ih (fun c' hc' => h c' (List.mem_cons_of_mem c hc'))]

theorem removeCredentialsLoop_sublist (k : String)
    (L : List KeyCredential) :
    List.Sublist (removeCredentialsLoop k L) L := by
  induction L with
  | nil => exact List.Sublist.refl []
  | cons c rest ih =>
      by_cases hc : eqFold (getOrZero c.keyId) k = true
      · simp only [removeCredentialsLoop, hc, if_pos]
        exact ih.cons c
      · simp only [removeCredentialsLoop, hc, if_neg, not_false_iff]
        exact ih.cons₂ c

theorem removeCredentialsLoop_mem {k : String} {L : List KeyCredential}
    {c : KeyCredential} (hmem : c ∈ L)
    (hc : eqFold (getOrZero c.keyId) k = false) :
    c ∈ removeCredentialsLoop k L := by
  induction L with
  | nil => cases hmem
  | cons c' rest ih =>
      rcases List.mem_cons.mp hmem with rfl | hmem'
      · simp [removeCredentialsLoop, hc]
      · by_cases hc' : eqFold (getOrZero c'.keyId) k = true
        · simp only [removeCredentialsLoop, hc', if_pos]
          exact ih hmem'
        · simp only [removeCredentialsLoop, hc', if_neg, not_false_iff]
          exact List.mem_cons_of_mem c' (ih hmem')

/-! ## Claim theorems -/

/-- C4: for every credential set `S` and descriptor not already present in
`S` under case-insensitive `keyId` comparison, adding the descriptor
(`withAdded`, the create path's credential-list construction) and then
removing its `keyId` (`withRemoved`, the delete path's construction) yields
the original set. -/
theorem withAdded_withRemoved_roundtrip (S : List KeyCredential)
    (credential : KeyCredential)
    (h : ∀ c ∈ S,
      eqFold (getOrZero c.keyId) (getOrZero credential.keyId) = false) :
    ∃ L, buildNewCredentials (some S) credential = .ok L ∧
      removeCredentials (some L) (getOrZero credential.keyId) = S := by
  refine ⟨S ++ [credential], ?_, ?_⟩
  · simp [buildNewCredentials, copyNonConflicting_of_not_contains h,
      Except.map]
  · simp [removeCredentials, removeCredentialsLoop_append,
      removeCredentialsLoop_of_no_match h, removeCredentialsLoop,
      eqFold_refl]

theorem withAdded_withRemoved_roundtrip_witness :
    ∃ L, buildNewCredentials
        (some [⟨some "aa", none, none, none, none⟩])
        ⟨some "bb", none, none, none, none⟩ = .ok L ∧
      removeCredentials (some L) "bb" =
        [⟨some "aa", none, none, none, none⟩] :=
  withAdded_withRemoved_roundtrip _ _ (by decide)

/-- C10: the create path's credential-list construction keeps every
pre-existing descriptor unchanged in its original relative order and appends
the new descriptor at the end; the delete path's construction keeps exactly
a sublist of the original (no reordering, no modification), containing every
descriptor whose `keyId` does not match. -/
theorem attach_appends_detach_frames :
    (∀ (S : List KeyCredential) (credential : KeyCredential)
        (L : List KeyCredential),
        buildNewCredentials (some S) credential = .ok L →
        L = S ++ [credential]) ∧
    (∀ (S : List KeyCredential) (k : String),
        List.Sublist (removeCredentials (some S) k) S ∧
        ∀ c ∈ S, eqFold (getOrZero c.keyId) k = false →
          c ∈ removeCredentials (some S) k) := by
  refine ⟨fun S credential L h => buildNewCredentials_ok h,
    fun S k => ⟨removeCredentialsLoop_sublist k S,
      fun c hmem hc => removeCredentialsLoop_mem hmem hc⟩⟩

theorem attach_appends_detach_frames_witness :
    buildNewCredentials (some [⟨some "aa", none, none, none, none⟩])
        ⟨some "bb", none, none, none, none⟩ =
      .ok [⟨some "aa", none, none, none, none⟩,
        ⟨some "bb", none, none, none, none⟩] ∧
    List.Sublist
      (removeCredentials (some [⟨some "aa", none, none, none, none⟩]) "bb")
      [⟨some "aa", none, none, none, none⟩] ∧
    (⟨some "aa", none, none, none, none⟩ : KeyCredential) ∈
      removeCredentials (some [⟨some "aa", none, none, none, none⟩]) "bb" := by
  refine ⟨rfl, (attach_appends_detach_frames.2 _ "bb").1,
    (attach_appends_detach_frames.2 _ "bb").2 _ (by decide) (by decide)⟩

/-- C3: if the fetched credential set already contains a descriptor whose
`keyId` equals the new descriptor's `keyId` case-insensitively, Attach
returns the import-as-exists diagnostic and never issues the directory
write. -/
theorem create_alreadyExists (env : CreateEnv)
    (credential c : KeyCredential) (k : String)
    (sp : ServicePrincipalModel) (creds : List KeyCredential)
    (h1 : env.credResult = .ok credential) (h2 : credential.keyId = some k)
    (h3 : env.fetch = .ok (some sp)) (h4 : sp.keyCredentials = some creds)
    (h5 : c ∈ creds) (h6 : eqFold (getOrZero c.keyId) k = true) :
    (servicePrincipalCertificateResourceCreate env).diags =
      some (.importAsExists "azuread_service_principal_certificate"
        (NewCredentialID env.objectId "certificate" k)) ∧
    ∀ nc, Event.updatePrincipal nc ∉
      (servicePrincipalCertificateResourceCreate env).trace := by
  have hk : eqFold (getOrZero c.keyId) (getOrZero credential.keyId)
      = true := by
    rw [h2]; simpa [getOrZero] using h6
  have hbuild : buildNewCredentials sp.keyCredentials credential
      = .error () := by
    rw [h4, buildNewCredentials_some,
      copyNonConflicting_error_of_contains h5 hk]
    rfl
  constructor
  · simp [servicePrincipalCertificateResourceCreate, h1, h2, createLocked,
      h3, hbuild, getOrZero]
  · intro nc
    simp [servicePrincipalCertificateResourceCreate, h1, h2, createLocked,
      h3, hbuild, wrapLock, getOrZero]

theorem create_alreadyExists_witness :
    (servicePrincipalCertificateResourceCreate
      ⟨"obj", .ok ⟨some "key1", none, none, none, none⟩,
        .ok (some ⟨some [⟨some "KEY1", none, none, none, none⟩]⟩),
        none, [], 0, 0, ⟨.error "x", .errNotFound⟩⟩).diags =
      some (.importAsExists "azuread_service_principal_certificate"
        (NewCredentialID "obj" "certificate" "key1")) ∧
    ∀ nc, Event.updatePrincipal nc ∉
      (servicePrincipalCertificateResourceCreate
        ⟨"obj", .ok ⟨some "key1", none, none, none, none⟩,
          .ok (some ⟨some [⟨some "KEY1", none, none, none, none⟩]⟩),
          none, [], 0, 0, ⟨.error "x", .errNotFound⟩⟩).trace :=
  create_alreadyExists _ _ ⟨some "KEY1", none, none, none, none⟩ "key1"
    ⟨some [⟨some "KEY1", none, none, none, none⟩]⟩ _
    rfl rfl rfl rfl (by decide) (by decide)

/-- C1 counterexample: at a concrete environment where the directory reports
the principal as not found at fetch time, Detach returns an error
diagnostic, not success, refuting the claimed idempotent-delete outcome. -/
theorem delete_notFound_counterexample :
    (servicePrincipalCertificateResourceDelete
      ⟨.ok ⟨"obj", "certificate", "key1"⟩, .errNotFound, none, []⟩).1 =
      some (Diag.errorDiagPathF "service_principal_id"
        "Service Principal was not found") ∧
    (servicePrincipalCertificateResourceDelete
      ⟨.ok ⟨"obj", "certificate", "key1"⟩, .errNotFound, none, []⟩).1 ≠
      none := by
  exact ⟨rfl, by decide⟩

/-- C1 (amended): when the directory reports the principal as not found at
fetch time, Detach returns the principal-not-found error diagnostic — not
success. -/
theorem delete_notFound_errors (env : DeleteEnv) (id : CredentialID)
    (h1 : env.parseResult = .ok id) (h2 : env.fetch = .errNotFound) :
    (servicePrincipalCertificateResourceDelete env).1 =
      some (.errorDiagPathF "service_principal_id"
        "Service Principal was not found") := by
  simp [servicePrincipalCertificateResourceDelete, h1, deleteLocked, h2]

theorem delete_notFound_errors_witness :
    (servicePrincipalCertificateResourceDelete
      ⟨.ok ⟨"obj", "certificate", "key1"⟩, .errNotFound, none, []⟩).1 =
      some (.errorDiagPathF "service_principal_id"
        "Service Principal was not found") :=
  delete_notFound_errors _ ⟨"obj", "certificate", "key1"⟩ rfl rfl

theorem read_trace_cases (env : ReadEnv) :
    (servicePrincipalCertificateResourceRead env).trace = [] ∨
    (servicePrincipalCertificateResourceRead env).trace =
      [.getPrincipal] := by
  obtain ⟨pr, f⟩ := env
  cases pr with
  | error pe => left; rfl
  | ok id =>
      cases f with
      | errNotFound => right; rfl
      | errOther msg => right; rfl
      | ok m =>
          cases m with
          | none => right; rfl
          | some sp =>
              cases h : GetKeyCredential sp.keyCredentials id.keyId <;>
                simp [servicePrincipalCertificateResourceRead, h]

/-- C8: Read performs no lock acquisition; a not-found principal, or a
principal whose credential set has no case-insensitive `keyId` match, yields
nil diagnostics together with `d.SetId("")` (the absence signal), not an
error. -/
theorem read_no_lock_and_absence (env : ReadEnv) :
    (∀ e ∈ (servicePrincipalCertificateResourceRead env).trace,
      isLockEvent e = false) ∧
    (∀ id, env.parseResult = .ok id → env.fetch = .errNotFound →
      (servicePrincipalCertificateResourceRead env).diags = none ∧
      (servicePrincipalCertificateResourceRead env).setIdEmpty = true) ∧
    (∀ id sp, env.parseResult = .ok id → env.fetch = .ok (some sp) →
      GetKeyCredential sp.keyCredentials id.keyId = none →
      (servicePrincipalCertificateResourceRead env).diags = none ∧
      (servicePrincipalCertificateResourceRead env).setIdEmpty = true) := by
  refine ⟨?_, ?_, ?_⟩
  · intro e he
    rcases read_trace_cases env with h | h <;> rw [h] at he
    · cases he
    · rw [List.mem_singleton] at he
      rw [he]
      rfl
  · intro id h1 h2
    simp [servicePrincipalCertificateResourceRead, h1, h2]
  · intro id sp h1 h2 h3
    simp [servicePrincipalCertificateResourceRead, h1, h2, h3]

theorem read_no_lock_and_absence_witness :
    ((servicePrincipalCertificateResourceRead
      ⟨.ok ⟨"obj", "certificate", "key1"⟩, .errNotFound⟩).diags = none ∧
    (servicePrincipalCertificateResourceRead
      ⟨.ok ⟨"obj", "certificate", "key1"⟩, .errNotFound⟩).setIdEmpty =
      true) ∧
    ((servicePrincipalCertificateResourceRead
      ⟨.ok ⟨"obj", "certificate", "key1"⟩, .ok (some ⟨some []⟩)⟩).diags =
        none ∧
    (servicePrincipalCertificateResourceRead
      ⟨.ok ⟨"obj", "certificate", "key1"⟩,
        .ok (some ⟨some []⟩)⟩).setIdEmpty = true) :=
  ⟨(read_no_lock_and_absence _).2.1 ⟨"obj", "certificate", "key1"⟩ rfl rfl,
    (read_no_lock_and_absence _).2.2 ⟨"obj", "certificate", "key1"⟩
      ⟨some []⟩ rfl rfl rfl⟩

/-- C2: at a concrete input where the freshly fetched credential set does
contain the newly attached `keyId`, the create-poll probe still answers
`"Waiting"`, and where the freshly fetched set no longer contains the
detached `keyId`, the delete-poll probe still answers still-present — both
probes consult only the stale snapshot captured before the write, not the
freshly fetched credential set. -/
theorem probes_use_stale_snapshot :
    createRefresh ⟨some []⟩ "key1"
      (.ok (some ⟨some [⟨some "key1", none, none, none, none⟩]⟩)) =
      ⟨none, "Waiting", none⟩ ∧
    deleteProbe ⟨some [⟨some "key1", none, none, none, none⟩]⟩ "key1"
      (.ok (some ⟨some []⟩)) = .ok true :=
  ⟨rfl, rfl⟩

/-! ## Lock-balance and poll-ordering lemmas -/

theorem filter_isLockEvent_replicate (n : Nat) :
    List.filter isLockEvent (List.replicate n Event.pollProbe) = [] := by
  induction n with
  | zero => rfl
  | succ n ih => simp [List.replicate_succ, List.filter, isLockEvent, ih]

theorem read_trace_no_lock (env : ReadEnv) :
    (servicePrincipalCertificateResourceRead env).trace.filter isLockEvent
      = [] := by
  rcases read_trace_cases env with h | h <;> rw [h] <;> rfl

theorem createLocked_trace_no_lock (env : CreateEnv)
    (credential : KeyCredential) (id : CredentialID) :
    (createLocked env credential id).trace.filter isLockEvent = [] := by
  obtain ⟨oid, cr, f, ue, pf, dl, nw, re⟩ := env
  cases f with
  | errNotFound => rfl
  | errOther msg => rfl
  | ok m =>
      cases m with
      | none => rfl
      | some sp =>
          cases hb : buildNewCredentials sp.keyCredentials credential with
          | error e => simp [createLocked, hb, isLockEvent]
          | ok nc =>
              cases ue with
              | some msg => simp [createLocked, hb, isLockEvent]
              | none =>
                  cases hr : runPoll (createPollConf dl nw) 0
                      (pf.map (createRefresh sp id.keyId)) with
                  | mk res n =>
                      cases res with
                      | ok v =>
                          cases v with
                          | none =>
                              simp [createLocked, hb, hr, isLockEvent,
                                filter_isLockEvent_replicate,
                                List.filter_append]
                          | some cred =>
                              simp [createLocked, hb, hr, isLockEvent,
                                filter_isLockEvent_replicate,
                                List.filter_append, read_trace_no_lock]
                      | timeout =>
                          simp [createLocked, hb, hr, isLockEvent,
                            filter_isLockEvent_replicate, List.filter_append]
                      | unexpectedState l =>
                          simp [createLocked, hb, hr, isLockEvent,
                            filter_isLockEvent_replicate, List.filter_append]
                      | probeErr m2 =>
                          simp [createLocked, hb, hr, isLockEvent,
                            filter_isLockEvent_replicate, List.filter_append]

theorem deleteLocked_trace_no_lock (env : DeleteEnv) (id : CredentialID) :
    (deleteLocked env id).2.filter isLockEvent = [] := by
  obtain ⟨pr, f, ue, pf⟩ := env
  cases f with
  | errNotFound => rfl
  | errOther msg => rfl
  | ok m =>
      cases m with
      | none => rfl
      | some sp =>
          cases ue with
          | some msg => rfl
          | none =>
              cases hr : waitForDeletion
                  (pf.map (deleteProbe sp id.keyId)) with
              | mk res n =>
                  cases res with
                  | success =>
                      simp [deleteLocked, hr, isLockEvent,
                        filter_isLockEvent_replicate, List.filter_append]
                  | timeout =>
                      simp [deleteLocked, hr, isLockEvent,
                        filter_isLockEvent_replicate, List.filter_append]
                  | probeErr m2 =>
                      simp [deleteLocked, hr, isLockEvent,
                        filter_isLockEvent_replicate, List.filter_append]

theorem filter_isLockEvent_wrapLock (name oid : String) (tr : List Event)
    (h : tr.filter isLockEvent = []) :
    (wrapLock name oid tr).filter isLockEvent =
      [.lock name oid, .unlock name oid] := by
  simp [wrapLock, List.filter_append, List.filter, h, isLockEvent]

/-- C5: every execution of Attach or Detach that acquires the per-principal
named lock releases it exactly once: the lock events of any Attach or
Detach trace are either empty (the call failed before acquiring) or exactly
one acquire followed by one release of the per-principal name. -/
theorem lock_release_balanced (envC : CreateEnv) (envD : DeleteEnv) :
    ((servicePrincipalCertificateResourceCreate envC).trace.filter
        isLockEvent = [] ∨
      ∃ oid, (servicePrincipalCertificateResourceCreate envC).trace.filter
        isLockEvent =
          [.lock servicePrincipalResourceName oid,
            .unlock servicePrincipalResourceName oid]) ∧
    ((servicePrincipalCertificateResourceDelete envD).2.filter
        isLockEvent = [] ∨
      ∃ oid, (servicePrincipalCertificateResourceDelete envD).2.filter
        isLockEvent =
          [.lock servicePrincipalResourceName oid,
            .unlock servicePrincipalResourceName oid]) := by
  constructor
  · cases hc : envC.credResult with
    | error e =>
        obtain ⟨attr, msg⟩ := e
        left
        simp [servicePrincipalCertificateResourceCreate, hc]
    | ok credential =>
        cases hk : credential.keyId with
        | none =>
            left
            simp [servicePrincipalCertificateResourceCreate, hc, hk]
        | some k =>
            right
            refine ⟨envC.objectId, ?_⟩
            have hbody := createLocked_trace_no_lock envC credential
              (NewCredentialID envC.objectId "certificate"
                (getOrZero credential.keyId))
            rw [hk] at hbody
            have hfin := filter_isLockEvent_wrapLock
              servicePrincipalResourceName envC.objectId _ hbody
            simpa [servicePrincipalCertificateResourceCreate, hc, hk,
              NewCredentialID] using hfin
  · cases hp : envD.parseResult with
    | error e =>
        left
        simp [servicePrincipalCertificateResourceDelete, hp]
    | ok id =>
        right
        refine ⟨id.objectId, ?_⟩
        have hbody := deleteLocked_trace_no_lock envD id
        simp [servicePrincipalCertificateResourceDelete, hp,
          filter_isLockEvent_wrapLock _ _ _ hbody]

/-- C7: when the confirmation poll of Attach or Detach times out, the
replace-credentials write had already been issued before polling began: the
failing trace is exactly lock, fetch, write, then the poll probes, then the
deferred unlock — the write is neither skipped nor rolled back. -/
theorem poll_timeout_write_issued :
    (∀ (env : CreateEnv) (credential : KeyCredential) (k : String)
        (sp : ServicePrincipalModel) (nc : List KeyCredential) (n : Nat),
      env.credResult = .ok credential → credential.keyId = some k →
      env.fetch = .ok (some sp) →
      buildNewCredentials sp.keyCredentials credential = .ok nc →
      env.updateError = none →
      runPoll (createPollConf env.deadline env.now) 0
        (env.pollFetches.map (createRefresh sp k)) = (.timeout, n) →
      (servicePrincipalCertificateResourceCreate env).diags =
        some (.errorDiagF "Waiting for certificate credential") ∧
      (servicePrincipalCertificateResourceCreate env).trace =
        .lock servicePrincipalResourceName env.objectId ::
          .getPrincipal :: .updatePrincipal nc ::
          (List.replicate n .pollProbe ++
            [.unlock servicePrincipalResourceName env.objectId])) ∧
    (∀ (env : DeleteEnv) (id : CredentialID) (sp : ServicePrincipalModel)
        (n : Nat),
      env.parseResult = .ok id → env.fetch = .ok (some sp) →
      env.updateError = none →
      waitForDeletion (env.pollFetches.map (deleteProbe sp id.keyId)) =
        (.timeout, n) →
      (servicePrincipalCertificateResourceDelete env).1 =
        some (.errorDiagF "Waiting for deletion of certificate credential") ∧
      (servicePrincipalCertificateResourceDelete env).2 =
        .lock servicePrincipalResourceName id.objectId ::
          .getPrincipal ::
          .updatePrincipal (removeCredentials sp.keyCredentials id.keyId) ::
          (List.replicate n .pollProbe ++
            [.unlock servicePrincipalResourceName id.objectId])) := by
  constructor
  · intro env credential k sp nc n h1 h2 h3 h4 h5 h6
    constructor
    · simp [servicePrincipalCertificateResourceCreate, h1, h2, createLocked,
        h3, h4, h5, NewCredentialID, getOrZero, h6]
    · simp [servicePrincipalCertificateResourceCreate, h1, h2, createLocked,
        h3, h4, h5, NewCredentialID, getOrZero, h6, wrapLock]
  · intro env id sp n h1 h2 h3 h4
    constructor
    · simp [servicePrincipalCertificateResourceDelete, h1, deleteLocked,
        h2, h3, h4]
    · simp [servicePrincipalCertificateResourceDelete, h1, deleteLocked,
        h2, h3, h4, wrapLock]

theorem poll_timeout_write_issued_witness :
    ((servicePrincipalCertificateResourceCreate
        ⟨"obj", .ok ⟨some "key1", none, none, none, none⟩,
          .ok (some ⟨some []⟩), none, [], 0, 0,
          ⟨.error "x", .errNotFound⟩⟩).diags =
      some (.errorDiagF "Waiting for certificate credential") ∧
      (servicePrincipalCertificateResourceCreate
        ⟨"obj", .ok ⟨some "key1", none, none, none, none⟩,
          .ok (some ⟨some []⟩), none, [], 0, 0,
          ⟨.error "x", .errNotFound⟩⟩).trace =
        .lock servicePrincipalResourceName "obj" ::
          .getPrincipal ::
          .updatePrincipal [⟨some "key1", none, none, none, none⟩] ::
          (List.replicate 0 .pollProbe ++
            [.unlock servicePrincipalResourceName "obj"])) ∧
    ((servicePrincipalCertificateResourceDelete
        ⟨.ok ⟨"obj", "certificate", "key1"⟩, .ok (some ⟨some []⟩),
          none, []⟩).1 =
      some (.errorDiagF "Waiting for deletion of certificate credential") ∧
      (servicePrincipalCertificateResourceDelete
        ⟨.ok ⟨"obj", "certificate", "key1"⟩, .ok (some ⟨some []⟩),
          none, []⟩).2 =
        .lock servicePrincipalResourceName "obj" ::
          .getPrincipal :: .updatePrincipal [] ::
          (List.replicate 0 .pollProbe ++
            [.unlock servicePrincipalResourceName "obj"])) :=
  ⟨poll_timeout_write_issued.1 _ ⟨some "key1", none, none, none, none⟩
      "key1" ⟨some []⟩ [⟨some "key1", none, none, none, none⟩] 0
      rfl rfl rfl rfl rfl rfl,
    poll_timeout_write_issued.2 _ ⟨"obj", "certificate", "key1"⟩
      ⟨some []⟩ 0 rfl rfl rfl rfl⟩

/-! ## The create poll's tuning constants and consecutive-hit law (C9) -/

theorem runPoll_ok_run (conf : StateChangeConf) (rs : List RefreshResult) :
    ∀ (hits n : Nat) (v : Option KeyCredential),
      hits < conf.continuousTargetOccurence →
      runPoll conf hits rs = (.ok v, n) →
      ∃ pre ts, rs.take n = pre ++ ts ∧
        (∀ r ∈ ts, conf.target.contains r.label = true ∧ r.err = none) ∧
        ((pre = [] ∧
            ts.length = conf.continuousTargetOccurence - hits) ∨
          ts.length = conf.continuousTargetOccurence) := by
  induction rs with
  | nil =>
      intro hits n v hlt h
      simp [runPoll] at h
  | cons r rest ih =>
      intro hits n v hlt h
      simp only [runPoll] at h
      cases herr : r.err with
      | some e => rw [herr] at h; simp at h
      | none =>
          rw [herr] at h
          by_cases htar : conf.target.contains r.label = true
          · rw [if_pos htar] at h
            by_cases hcnt : conf.continuousTargetOccurence ≤ hits + 1
            · rw [if_pos hcnt] at h
              simp only [Prod.mk.injEq, PollResult.ok.injEq] at h
              obtain ⟨hv, hn⟩ := h
              refine ⟨[], [r], ?_, ?_, ?_⟩
              · rw [← hn]; rfl
              · intro x hx
                rw [List.mem_singleton] at hx
                rw [hx]
                exact ⟨htar, herr⟩
              · left
                refine ⟨rfl, ?_⟩
                simp only [List.length_singleton]
                omega
            · rw [if_neg hcnt] at h
              cases hres : runPoll conf (hits + 1) rest with
              | mk o m =>
                  rw [hres] at h
                  simp only [Prod.mk.injEq] at h
                  obtain ⟨ho, hn⟩ := h
                  obtain ⟨pre, ts, htake, hall, hdisj⟩ :=
                    ih (hits + 1) m v (by omega) (by rw [hres, ho])
                  rcases hdisj with ⟨hpre, hlen⟩ | hlen
                  · refine ⟨[], r :: ts, ?_, ?_, ?_⟩
                    · rw [← hn]
                      simp only [List.take_succ_cons, htake, hpre,
                        List.nil_append]
                    · intro x hx
                      rcases List.mem_cons.mp hx with rfl | hx'
                      · exact ⟨htar, herr⟩
                      · exact hall x hx'
                    · left
                      constructor
                      · rfl
                      · simp only [List.length_cons, hlen]
                        omega
                  · refine ⟨r :: pre, ts, ?_, hall, Or.inr hlen⟩
                    rw [← hn]
                    simp only [List.take_succ_cons, htake, List.cons_append]
          · rw [if_neg htar] at h
            by_cases hpend : conf.pending.contains r.label = true
            · rw [if_pos hpend] at h
              cases hres : runPoll conf 0 rest with
              | mk o m =>
                  rw [hres] at h
                  simp only [Prod.mk.injEq] at h
                  obtain ⟨ho, hn⟩ := h
                  obtain ⟨pre, ts, htake, hall, hdisj⟩ :=
                    ih 0 m v (by omega) (by rw [hres, ho])
                  refine ⟨r :: pre, ts, ?_, hall, ?_⟩
                  · rw [← hn]
                    simp only [List.take_succ_cons, htake, List.cons_append]
                  · rcases hdisj with ⟨hpre, hlen⟩ | hlen
                    · right; omega
                    · right; exact hlen
            · rw [if_neg hpend] at h
              simp at h

/-- C9: the create confirmation poll is configured with pending label
`"Waiting"`, target label `"Done"`, hard timeout `time.Until` of the
caller-context deadline, minimum interval one second, and five required
consecutive target observations — and the modelled poll loop declares
success only after five consecutive `"Done"` observations. -/
theorem createPoll_constants_and_consecutive (deadline now : Int) :
    createPollConf deadline now =
      ⟨["Waiting"], ["Done"], deadline - now, 1000000000, 5⟩ ∧
    ∀ (rs : List RefreshResult) (v : Option KeyCredential) (n : Nat),
      runPoll (createPollConf deadline now) 0 rs = (.ok v, n) →
      ∃ pre ts, rs.take n = pre ++ ts ∧ ts.length = 5 ∧
        ∀ r ∈ ts, r.label = "Done" ∧ r.err = none := by
  refine ⟨rfl, ?_⟩
  intro rs v n h
  obtain ⟨pre, ts, htake, hall, hdisj⟩ :=
    runPoll_ok_run (createPollConf deadline now) rs 0 n v
      (Nat.zero_lt_succ 4) h
  refine ⟨pre, ts, htake, ?_, ?_⟩
  · rcases hdisj with ⟨_, hlen⟩ | hlen
    · simpa using hlen
    · simpa using hlen
  · intro r hr
    obtain ⟨hc, he⟩ := hall r hr
    refine ⟨?_, he⟩
    simpa [createPollConf, List.contains] using hc

theorem createPoll_constants_and_consecutive_witness :
    runPoll (createPollConf 7 2) 0
      (List.replicate 5 ⟨none, "Done", none⟩) = (.ok none, 5) ∧
    ∃ pre ts,
      (List.replicate 5 (⟨none, "Done", none⟩ : RefreshResult)).take 5 =
        pre ++ ts ∧ ts.length = 5 ∧
      ∀ r ∈ ts, r.label = "Done" ∧ r.err = none :=
  ⟨rfl, (createPoll_constants_and_consecutive 7 2).2 _ none 5 rfl⟩

/-! ## Serialization of concurrent attaches against one principal (C6)

Two concurrent Attach calls against the same principal are modelled as an
interleaving of atomic actions over the shared remote credential list and
the per-principal named mutex.  Each task's actions mirror the create path:
acquire the lock, fetch the credential list, compute `buildNewCredentials`
and write it back (or return the import-as-exists failure), run the
confirmation poll (which does not modify the remote list), and release the
lock via the deferred unlock. -/

inductive Phase
  | start | locked | fetched | written | polled | done | failed
  deriving Repr, DecidableEq

structure TaskState where
  phase : Phase
  fetched : List KeyCredential
  deriving Repr, DecidableEq

/-- Shared state: the principal's remote credential list, the holder of the
per-principal named mutex, and the two tasks. -/
structure SysState where
  dir : List KeyCredential
  lockHolder : Option Bool
  t0 : TaskState
  t1 : TaskState
  deriving Repr, DecidableEq

def SysState.taskOf (s : SysState) : Bool → TaskState
  | false => s.t0
  | true => s.t1

def SysState.withTask (s : SysState) : Bool → TaskState → SysState
  | false, ts => { s with t0 := ts }
  | true, ts => { s with t1 := ts }

def SysState.setLock (s : SysState) (l : Option Bool) : SysState :=
  { s with lockHolder := l }

def SysState.setDir (s : SysState) (dirNew : List KeyCredential) :
    SysState :=
  { s with dir := dirNew }

theorem taskOf_withTask (s : SysState) (t u : Bool) (ts : TaskState) :
    (s.withTask t ts).taskOf u = if u = t then ts else s.taskOf u := by
  cases t <;> cases u <;> rfl

theorem dir_withTask (s : SysState) (t : Bool) (ts : TaskState) :
    (s.withTask t ts).dir = s.dir := by cases t <;> rfl

theorem lockHolder_withTask (s : SysState) (t : Bool) (ts : TaskState) :
    (s.withTask t ts).lockHolder = s.lockHolder := by cases t <;> rfl

theorem taskOf_setLock (s : SysState) (l : Option Bool) (u : Bool) :
    (s.setLock l).taskOf u = s.taskOf u := by cases u <;> rfl

theorem dir_setLock (s : SysState) (l : Option Bool) :
    (s.setLock l).dir = s.dir := rfl

theorem lockHolder_setLock (s : SysState) (l : Option Bool) :
    (s.setLock l).lockHolder = l := rfl

theorem taskOf_setDir (s : SysState) (dirNew : List KeyCredential)
    (u : Bool) : (s.setDir dirNew).taskOf u = s.taskOf u := by
  cases u <;> rfl

theorem dir_setDir (s : SysState) (dirNew : List KeyCredential) :
    (s.setDir dirNew).dir = dirNew := rfl

theorem lockHolder_setDir (s : SysState) (dirNew : List KeyCredential) :
    (s.setDir dirNew).lockHolder = s.lockHolder := rfl

/-- One atomic action of either task (`d` assigns each task its
descriptor).  `acquire` is `tf.LockByName` and blocks while the other task
holds the lock; `fetch` is the `GetServicePrincipal` read; `write` the
`UpdateServicePrincipal` full-replace of the list computed by
`buildNewCredentials`; `conflict` the import-as-exists return (with its
deferred unlock); `poll` the confirmation poll, which does not modify the
remote list; `release` the deferred `tf.UnlockByName` on the success
path. -/
inductive Step (d : Bool → KeyCredential) : SysState → SysState → Prop
  | acquire (t : Bool) (st : SysState) :
      st.lockHolder = none → (st.taskOf t).phase = .start →
      Step d st ((st.withTask t ⟨.locked, (st.taskOf t).fetched⟩).setLock
        (some t))
  | fetch (t : Bool) (st : SysState) :
      (st.taskOf t).phase = .locked →
      Step d st (st.withTask t ⟨.fetched, st.dir⟩)
  | write (t : Bool) (st : SysState) (L : List KeyCredential) :
      (st.taskOf t).phase = .fetched →
      buildNewCredentials (some ((st.taskOf t).fetched)) (d t) = .ok L →
      Step d st ((st.withTask t ⟨.written, (st.taskOf t).fetched⟩).setDir L)
  | conflict (t : Bool) (st : SysState) :
      (st.taskOf t).phase = .fetched →
      buildNewCredentials (some ((st.taskOf t).fetched)) (d t) =
        .error () →
      Step d st ((st.withTask t ⟨.failed, (st.taskOf t).fetched⟩).setLock
        none)
  | poll (t : Bool) (st : SysState) :
      (st.taskOf t).phase = .written →
      Step d st (st.withTask t ⟨.polled, (st.taskOf t).fetched⟩)
  | release (t : Bool) (st : SysState) :
      (st.taskOf t).phase = .polled →
      Step d st ((st.withTask t ⟨.done, (st.taskOf t).fetched⟩).setLock
        none)

/-- Both Attach calls start with the lock free and the remote list `S0`. -/
def initState (S0 : List KeyCredential) : SysState :=
  ⟨S0, none, ⟨.start, []⟩, ⟨.start, []⟩⟩

theorem containsKeyId_append_right (L : List KeyCredential)
    (c : KeyCredential) (k : String) (h : containsKeyId L k = true) :
    containsKeyId (L ++ [c]) k = true := by
  simp [containsKeyId, List.any_append] at h ⊢
  exact Or.inl h

theorem containsKeyId_self (L : List KeyCredential) (c : KeyCredential) :
    containsKeyId (L ++ [c]) (getOrZero c.keyId) = true := by
  simp [containsKeyId, List.any_append, eqFold_refl]

/-- Invariant of the two-attach system: the lock is held by any task inside
its critical section; a fetching task's snapshot is the current remote
list; once a task has written, its `keyId` stays in the remote list; and a
task that fetched after the other finished sees the finished task's
`keyId` in its snapshot. -/
structure Inv (d : Bool → KeyCredential) (s : SysState) : Prop where
  holder : ∀ t : Bool,
    ((s.taskOf t).phase = .locked ∨ (s.taskOf t).phase = .fetched ∨
      (s.taskOf t).phase = .written ∨ (s.taskOf t).phase = .polled) →
    s.lockHolder = some t
  fetchFresh : ∀ t : Bool, (s.taskOf t).phase = .fetched →
    (s.taskOf t).fetched = s.dir
  writtenMem : ∀ t : Bool,
    ((s.taskOf t).phase = .written ∨ (s.taskOf t).phase = .polled ∨
      (s.taskOf t).phase = .done) →
    containsKeyId s.dir (getOrZero (d t).keyId) = true
  doneSeen : ∀ t u : Bool, t ≠ u → (s.taskOf t).phase = .done →
    (s.taskOf u).phase = .fetched →
    containsKeyId (s.taskOf u).fetched (getOrZero (d t).keyId) = true

theorem Inv.preserved {d : Bool → KeyCredential} {s s' : SysState}
    (hs : Inv d s) (h : Step d s s') : Inv d s' := by
  cases h with
  | acquire t st hlock hph =>
      refine ⟨?_, ?_, ?_, ?_⟩
      · intro u hu
        by_cases hut : u = t
        · subst hut; simp [lockHolder_setLock, lockHolder_withTask]
        · simp [taskOf_setLock, taskOf_withTask, hut] at hu
          have hcontra := hs.holder u hu
          rw [hlock] at hcontra
          exact Option.noConfusion hcontra
      · intro u hu
        by_cases hut : u = t
        · subst hut
          simp [taskOf_setLock, taskOf_withTask] at hu
        · simp [taskOf_setLock, taskOf_withTask, hut] at hu ⊢
          simp [dir_setLock, dir_withTask]
          exact hs.fetchFresh u hu
      · intro u hu
        by_cases hut : u = t
        · subst hut
          simp [taskOf_setLock, taskOf_withTask] at hu
        · simp [taskOf_setLock, taskOf_withTask, hut] at hu
          simp [dir_setLock, dir_withTask]
          exact hs.writtenMem u hu
      · intro a b hab ha hb
        by_cases hat : a = t
        · subst hat
          simp [taskOf_setLock, taskOf_withTask] at ha
        · by_cases hbt : b = t
          · subst hbt
            simp [taskOf_setLock, taskOf_withTask] at hb
          · simp [taskOf_setLock, taskOf_withTask, hat, hbt] at ha hb ⊢
            exact hs.doneSeen a b hab ha hb
  | fetch t st hph =>
      refine ⟨?_, ?_, ?_, ?_⟩
      · intro u hu
        by_cases hut : u = t
        · subst hut
          simp [lockHolder_withTask]
          exact hs.holder u (Or.inl hph)
        · simp [taskOf_withTask, hut] at hu
          simp [lockHolder_withTask]
          exact hs.holder u hu
      · intro u hu
        by_cases hut : u = t
        · subst hut
          simp [taskOf_withTask, dir_withTask]
        · simp [taskOf_withTask, hut] at hu ⊢
          simp [dir_withTask]
          exact hs.fetchFresh u hu
      · intro u hu
        by_cases hut : u = t
        · subst hut
          simp [taskOf_withTask] at hu
        · simp [taskOf_withTask, hut] at hu
          simp [dir_withTask]
          exact hs.writtenMem u hu
      · intro a b hab ha hb
        by_cases hbt : b = t
        · subst hbt
          simp [taskOf_withTask, hab] at ha
          simp [taskOf_withTask]
          exact hs.writtenMem a (Or.inr (Or.inr ha))
        · by_cases hat : a = t
          · subst hat
            simp [taskOf_withTask] at ha
          · simp [taskOf_withTask, hat, hbt] at ha hb ⊢
            exact hs.doneSeen a b hab ha hb
  | write t st L hph hbuild =>
      have hL : L = (s.taskOf t).fetched ++ [d t] :=
        buildNewCredentials_ok hbuild
      refine ⟨?_, ?_, ?_, ?_⟩
      · intro u hu
        by_cases hut : u = t
        · subst hut
          simp [lockHolder_setDir, lockHolder_withTask]
          exact hs.holder u (Or.inr (Or.inl hph))
        · simp [taskOf_setDir, taskOf_withTask, hut] at hu
          simp [lockHolder_setDir, lockHolder_withTask]
          exact hs.holder u hu
      · intro u hu
        by_cases hut : u = t
        · subst hut
          simp [taskOf_setDir, taskOf_withTask] at hu
        · simp [taskOf_setDir, taskOf_withTask, hut] at hu
          have h1 := hs.holder u (Or.inr (Or.inl hu))
          have h2 := hs.holder t (Or.inr (Or.inl hph))
          rw [h2] at h1
          injection h1 with h1
          exact absurd h1.symm hut
      · intro u hu
        by_cases hut : u = t
        · subst hut
          simp [dir_setDir, hL]
          exact containsKeyId_self _ _
        · simp [taskOf_setDir, taskOf_withTask, hut] at hu
          simp [dir_setDir, hL]
          rcases hu with hw | hp | hd
          · have h1 := hs.holder u (Or.inr (Or.inr (Or.inl hw)))
            have h2 := hs.holder t (Or.inr (Or.inl hph))
            rw [h2] at h1
            injection h1 with h1
            exact absurd h1.symm hut
          · have h1 := hs.holder u (Or.inr (Or.inr (Or.inr hp)))
            have h2 := hs.holder t (Or.inr (Or.inl hph))
            rw [h2] at h1
            injection h1 with h1
            exact absurd h1.symm hut
          · exact containsKeyId_append_right _ _ _
              (hs.doneSeen u t hut hd hph)
      · intro a b hab ha hb
        by_cases hbt : b = t
        · subst hbt
          simp [taskOf_setDir, taskOf_withTask] at hb
        · by_cases hat : a = t
          · subst hat
            simp [taskOf_setDir, taskOf_withTask] at ha
          · simp [taskOf_setDir, taskOf_withTask, hat, hbt] at ha hb ⊢
            exact hs.doneSeen a b hab ha hb
  | conflict t st hph hbuild =>
      refine ⟨?_, ?_, ?_, ?_⟩
      · intro u hu
        by_cases hut : u = t
        · subst hut
          simp [taskOf_setLock, taskOf_withTask] at hu
        · simp [taskOf_setLock, taskOf_withTask, hut] at hu
          have h1 := hs.holder u hu
          have h2 := hs.holder t (Or.inr (Or.inl hph))
          rw [h2] at h1
          injection h1 with h1
          exact absurd h1.symm hut
      · intro u hu
        by_cases hut : u = t
        · subst hut
          simp [taskOf_setLock, taskOf_withTask] at hu
        · simp [taskOf_setLock, taskOf_withTask, hut] at hu ⊢
          simp [dir_setLock, dir_withTask]
          exact hs.fetchFresh u hu
      · intro u hu
        by_cases hut : u = t
        · subst hut
          simp [taskOf_setLock, taskOf_withTask] at hu
        · simp [taskOf_setLock, taskOf_withTask, hut] at hu
          simp [dir_setLock, dir_withTask]
          exact hs.writtenMem u hu
      · intro a b hab ha hb
        by_cases hat : a = t
        · subst hat
          simp [taskOf_setLock, taskOf_withTask] at ha
        · by_cases hbt : b = t
          · subst hbt
            simp [taskOf_setLock, taskOf_withTask] at hb
          · simp [taskOf_setLock, taskOf_withTask, hat, hbt] at ha hb ⊢
            exact hs.doneSeen a b hab ha hb
  | poll t st hph =>
      refine ⟨?_, ?_, ?_, ?_⟩
      · intro u hu
        by_cases hut : u = t
        · subst hut
          simp [lockHolder_withTask]
          exact hs.holder u (Or.inr (Or.inr (Or.inl hph)))
        · simp [taskOf_withTask, hut] at hu
          simp [lockHolder_withTask]
          exact hs.holder u hu
      · intro u hu
        by_cases hut : u = t
        · subst hut
          simp [taskOf_withTask] at hu
        · simp [taskOf_withTask, hut] at hu ⊢
          simp [dir_withTask]
          exact hs.fetchFresh u hu
      · intro u hu
        by_cases hut : u = t
        · subst hut
          simp [dir_withTask]
          exact hs.writtenMem u (Or.inl hph)
        · simp [taskOf_withTask, hut] at hu
          simp [dir_withTask]
          exact hs.writtenMem u hu
      · intro a b hab ha hb
        by_cases hat : a = t
        · subst hat
          simp [taskOf_withTask] at ha
        · by_cases hbt : b = t
          · subst hbt
            simp [taskOf_withTask] at hb
          · simp [taskOf_withTask, hat, hbt] at ha hb ⊢
            exact hs.doneSeen a b hab ha hb
  | release t st hph =>
      refine ⟨?_, ?_, ?_, ?_⟩
      · intro u hu
        by_cases hut : u = t
        · subst hut
          simp [taskOf_setLock, taskOf_withTask] at hu
        · simp [taskOf_setLock, taskOf_withTask, hut] at hu
          have h1 := hs.holder u hu
          have h2 := hs.holder t (Or.inr (Or.inr (Or.inr hph)))
          rw [h2] at h1
          injection h1 with h1
          exact absurd h1.symm hut
      · intro u hu
        by_cases hut : u = t
        · subst hut
          simp [taskOf_setLock, taskOf_withTask] at hu
        · simp [taskOf_setLock, taskOf_withTask, hut] at hu ⊢
          simp [dir_setLock, dir_withTask]
          exact hs.fetchFresh u hu
      · intro u hu
        by_cases hut : u = t
        · subst hut
          simp [dir_setLock, dir_withTask]
          exact hs.writtenMem u (Or.inr (Or.inl hph))
        · simp [taskOf_setLock, taskOf_withTask, hut] at hu
          simp [dir_setLock, dir_withTask]
          exact hs.writtenMem u hu
      · intro a b hab ha hb
        by_cases hat : a = t
        · subst hat
          have hbt : b ≠ a := Ne.symm hab
          simp [taskOf_setLock, taskOf_withTask, hbt] at hb
          have h1 := hs.holder b (Or.inr (Or.inl hb))
          have h2 := hs.holder a (Or.inr (Or.inr (Or.inr hph)))
          rw [h2] at h1
          injection h1 with h1
          exact absurd h1 hab
        · by_cases hbt : b = t
          · subst hbt
            simp [taskOf_setLock, taskOf_withTask] at hb
          · simp [taskOf_setLock, taskOf_withTask, hat, hbt] at ha hb ⊢
            exact hs.doneSeen a b hab ha hb

theorem Inv.initial (d : Bool → KeyCredential) (S0 : List KeyCredential) :
    Inv d (initState S0) := by
  refine ⟨?_, ?_, ?_, ?_⟩
  · intro t ht
    cases t <;> simp [initState, SysState.taskOf] at ht
  · intro t ht
    cases t <;> simp [initState, SysState.taskOf] at ht
  · intro t ht
    cases t <;> simp [initState, SysState.taskOf] at ht
  · intro a b hab ha hb
    cases a <;> simp [initState, SysState.taskOf] at ha

theorem Inv.reachable {d : Bool → KeyCredential} {S0 : List KeyCredential}
    {s : SysState}
    (h : Relation.ReflTransGen (Step d) (initState S0) s) : Inv d s := by
  induction h with
  | refl => exact Inv.initial d S0
  | tail hsteps hstep ih => exact ih.preserved hstep

/-- C6: in every interleaved execution of two Attach calls against the same
principal in which both tasks complete, the per-principal mutex (spanning
fetch, modify, write and confirm) serializes the two read-modify-writes,
and the final remote credential set contains both descriptors' `keyIds` —
neither update is lost. -/
theorem concurrent_attaches_serialized (S0 : List KeyCredential)
    (d : Bool → KeyCredential) (s : SysState)
    (hreach : Relation.ReflTransGen (Step d) (initState S0) s)
    (h0 : s.t0.phase = .done) (h1 : s.t1.phase = .done) :
    containsKeyId s.dir (getOrZero (d false).keyId) = true ∧
    containsKeyId s.dir (getOrZero (d true).keyId) = true := by
  have hinv := Inv.reachable hreach
  exact ⟨hinv.writtenMem false (Or.inr (Or.inr h0)),
    hinv.writtenMem true (Or.inr (Or.inr h1))⟩

theorem concurrent_attaches_serialized_witness :
    containsKeyId [⟨some "a", none, none, none, none⟩,
        ⟨some "b", none, none, none, none⟩] "a" = true ∧
    containsKeyId [⟨some "a", none, none, none, none⟩,
        ⟨some "b", none, none, none, none⟩] "b" = true := by
  refine concurrent_attaches_serialized []
    (fun b => if b then ⟨some "b", none, none, none, none⟩
      else ⟨some "a", none, none, none, none⟩)
    ⟨[⟨some "a", none, none, none, none⟩,
        ⟨some "b", none, none, none, none⟩],
      none, ⟨.done, []⟩, ⟨.done, [⟨some "a", none, none, none, none⟩]⟩⟩
    ?_ rfl rfl
  refine Relation.ReflTransGen.head (Step.acquire false _ rfl rfl) ?_
  refine Relation.ReflTransGen.head (Step.fetch false _ rfl) ?_
  refine Relation.ReflTransGen.head
    (Step.write false _ [⟨some "a", none, none, none, none⟩] rfl rfl) ?_
  refine Relation.ReflTransGen.head (Step.poll false _ rfl) ?_
  refine Relation.ReflTransGen.head (Step.release false _ rfl) ?_
  refine Relation.ReflTransGen.head (Step.acquire true _ rfl rfl) ?_
  refine Relation.ReflTransGen.head (Step.fetch true _ rfl) ?_
  refine Relation.ReflTransGen.head
    (Step.write true _ [⟨some "a", none, none, none, none⟩,
      ⟨some "b", none, none, none, none⟩] rfl rfl) ?_
  refine Relation.ReflTransGen.head (Step.poll true _ rfl) ?_
  refine Relation.ReflTransGen.head (Step.release true _ rfl) ?_
  exact Relation.ReflTransGen.refl

end AzureAD
